import Mathlib

/-!
Verification of the retrieval-and-response pipeline in
`src/core/simple_agent.py`.

Strings are embedded as `List Char` (`Str`), so that every operation of the
Python code (lower-casing, regex character filtering, `split`, `strip`,
`replace`, `startswith`, substring tests) becomes a structurally
transparent Lean function.  Character classes model the ASCII core of
Python's `\w` / `\s` and of `str.strip()` / `str.split()`; no claim involves
non-ASCII input.  File reading is embedded by passing the file content as an
`Option Str` (`none` plays the role of `FileNotFoundError`), and the
possibility of an exception inside the researcher node's `try` block is
embedded by parametrising the pipeline over a search function returning
`Except Str (List Str)`.
-/

abbrev Str := List Char

/-- ASCII core of the regex class `\w` used in `tokenize`:
letters, digits and underscore. -/
def isWordChar (c : Char) : Bool :=
  c.isAlphanum || c == '_'

/-- ASCII core of Python whitespace (`\s`, `str.strip()`, `str.split()`):
space, tab, newline, carriage return, vertical tab, form feed. -/
def isSpaceChar (c : Char) : Bool :=
  c == ' ' || c == '\t' || c == '\n' || c == '\r' || c == '\x0b' || c == '\x0c'

/-- Python `str.strip()`: drop leading and trailing whitespace. -/
def strip (s : Str) : Str :=
  ((s.dropWhile isSpaceChar).reverse.dropWhile isSpaceChar).reverse

/-- Python `str.split()` with no separator: split on runs of whitespace,
discarding empty pieces.  The second argument accumulates the current word
in reverse. -/
def splitWsAux : Str → Str → List Str
  | [], cur => if cur.isEmpty then [] else [cur.reverse]
  | c :: rest, cur =>
    if isSpaceChar c then
      if cur.isEmpty then splitWsAux rest [] else cur.reverse :: splitWsAux rest []
    else splitWsAux rest (c :: cur)

def splitWs (s : Str) : List Str := splitWsAux s []

/-- Embedding of `tokenize` (simple_agent.py, lines 24-28): lower-case, delete every
character that is neither a word character nor whitespace
(`re.sub(r"[^\w\s]", "", text)`), split on whitespace, collect into a set.
The Python `set` is embedded as a duplicate-free list; only membership
matters to the program. -/
def tokenize (text : Str) : List Str :=
  (splitWs ((text.map Char.toLower).filter (fun c => isWordChar c || isSpaceChar c))).dedup

/-- Truthiness of `query_tokens & block_tokens` in `search_sources`:
the two token sets intersect. -/
def tokensIntersect (a b : List Str) : Bool :=
  a.any (fun t => b.contains t)

/-- Python `s.startswith(p)` on embedded strings. -/
def hasPrefixL (p s : Str) : Bool :=
  s.take p.length == p

/-- Python `p in s` (substring test, used by `summarize_sources`). -/
def isSubstr (n : Str) : Str → Bool
  | [] => hasPrefixL n []
  | c :: t => hasPrefixL n (c :: t) || isSubstr n t

/-- Python `s.split(sep)` for a non-empty separator: scan left to right,
cutting at each non-overlapping occurrence of `sep`.  `acc` holds the
current chunk in reverse. -/
def splitOnAux (sep : Str) : Str → Str → List Str
  | [], acc => [acc.reverse]
  | c :: rest, acc =>
    if hasPrefixL sep (c :: rest) then
      acc.reverse :: splitOnAux sep (rest.drop (sep.length - 1)) []
    else
      splitOnAux sep rest (c :: acc)
termination_by s _ => s.length
decreasing_by
  · simp only [List.length_drop, List.length_cons]; omega
  · simp only [List.length_cons]; omega

def splitOnSep (sep s : Str) : List Str := splitOnAux sep s []

/-- Python `s.replace(pat, "")` for a non-empty pattern: remove every
non-overlapping occurrence of `pat`, scanning left to right.  This equals
joining the pieces of `s.split(pat)` with nothing in between. -/
def removeAll (pat s : Str) : Str :=
  (splitOnSep pat s).flatten

/-- Python `sep.join(xs)` on embedded strings. -/
def joinSep (sep : Str) : List Str → Str
  | [] => []
  | [x] => x
  | x :: y :: rest => x ++ sep ++ joinSep sep (y :: rest)

/-- Decimal rendering of a natural number, for the `[i]` index markers. -/
def natToStr (n : Nat) : Str := (Nat.repr n).data

/-- Embedding of `AgentState` (simple_agent.py, lines 12-17). -/
structure AgentState where
  conversation_history : List Str
  current_query : Str
  retrieved_sources : List Str
  final_answer : Str
  error : Str
deriving DecidableEq, Repr

/-- Embedding of `load_sources` (lines 35-44).  The file system is embedded by passing
the file content directly: `none` stands for `FileNotFoundError` (the
`except` branch returns `[]`), `some c` for a successful read of content
`c`, which the code splits with `c.split("\n---\n")`. -/
def load_sources (content : Option Str) : List Str :=
  match content with
  | none => []
  | some c => splitOnSep "\n---\n".data c

/-- Embedding of `search_sources` (lines 54-64), with the module-level `SOURCES` made an
explicit parameter: append `block.strip()` for each block whose token set
meets the query's token set. -/
def search_loop (query_tokens : List Str) : List Str → List Str
  | [] => []
  | block :: rest =>
    if tokensIntersect query_tokens (tokenize block) then
      strip block :: search_loop query_tokens rest
    else
      search_loop query_tokens rest

def search_sources (sources : List Str) (query : Str) : List Str :=
  search_loop (tokenize query) sources

/-- The summary dict built by `summarize_sources` (lines 71-92). -/
structure SourceSummary where
  total_sources : Nat
  url_sources : Nat
  title_sources : Nat
  topics : List Str
deriving DecidableEq, Repr

def urlMark : Str := "URL:".data

def titleMark : Str := "TITLE:".data

def contentMark : Str := "CONTENT:".data

/-- Embedding of `list(meaningful_words)[:3]` in `summarize_sources`: up to three tokens
of the block longer than four characters.  Python's set iteration order is
implementation defined; the embedding fixes the first-scan order of the
duplicate-free token list, which satisfies every property the code's
callers rely on (each chosen token is a token of the block, at most three
per block). -/
def topicsOf (src : Str) : List Str :=
  ((tokenize src).filter (fun w => decide (4 < w.length))).take 3

/-- Python `set.update`: add the new elements not already present. -/
def setUpdate (acc add : List Str) : List Str :=
  acc ++ add.filter (fun t => !(acc.contains t))

/-- One iteration of the `for src in sources` loop of `summarize_sources`. -/
def summarizeStep (acc : SourceSummary) (src : Str) : SourceSummary :=
  { acc with
    url_sources := if isSubstr urlMark src then acc.url_sources + 1 else acc.url_sources
    title_sources := if isSubstr titleMark src then acc.title_sources + 1 else acc.title_sources
    topics := setUpdate acc.topics (topicsOf src) }

/-- Embedding of `summarize_sources` (lines 71-92). -/
def summarize_sources (sources : List Str) : SourceSummary :=
  sources.foldl summarizeStep
    { total_sources := sources.length, url_sources := 0, title_sources := 0, topics := [] }

/-- Embedding of `planner_node` (lines 99-105). -/
def planner_node (s : AgentState) : AgentState :=
  if (strip s.current_query).isEmpty then
    { s with error := "Empty query received.".data }
  else
    { s with error := [] }

/-- Embedding of `researcher_node` (lines 108-122), parametrised over the outcome of
`search_sources(state["current_query"])`: `Except.ok` embeds a normal
return, `Except.error e` an exception with `str(e) = e` caught by the
`except` branch, which sets `error = "Search error: " + str(e)` and clears
the sources.  The `summarize_sources` call inside the `try` is a total
function used only for a progress `print`; it leaves the state unchanged. -/
def researcher_node (res : Except Str (List Str)) (s : AgentState) : AgentState :=
  match res with
  | .ok sources => { s with retrieved_sources := sources }
  | .error e => { s with error := "Search error: ".data ++ e, retrieved_sources := [] }

/-- The fixed "no sources" message of `responder_node` (lines 134-137). -/
def noSourcesMsg (q : Str) : Str :=
  "No relevant sources found for: '".data ++ q ++ "'.".data
    ++ "\nTry rephrasing your question.".data

/-- The `for line in lines` field-extraction loop of `responder_node`
(lines 150-156): `content` and `source_ref` both follow a
"last matching line wins" discipline, and each field value is the line with
every occurrence of its marker removed (`line.replace(mark, "")`) and then
stripped. -/
def fieldStep (cr : Str × Str) (line : Str) : Str × Str :=
  if hasPrefixL contentMark line then (strip (removeAll contentMark line), cr.2)
  else if hasPrefixL urlMark line then (cr.1, strip (removeAll urlMark line))
  else if hasPrefixL titleMark line then (cr.1, strip (removeAll titleMark line))
  else cr

/-- Field extraction for one source block: `lines = src.strip().split("\n")`
followed by the loop above; returns `(content, source_ref)`. -/
def extract_fields (src : Str) : Str × Str :=
  (splitOnSep "\n".data (strip src)).foldl fieldStep ([], [])

/-- The `[i] value` entries used in the body and the reference list. -/
def idxEntry (i : Nat) (v : Str) : Str :=
  "[".data ++ natToStr i ++ "] ".data ++ v

/-- The `for i, src in enumerate(state["retrieved_sources"], 1)` loop of
`responder_node` (lines 145-162): returns the accumulated body text and the
list of reference entries. -/
def respond_loop (i : Nat) : List Str → Str × List Str
  | [] => ([], [])
  | src :: rest =>
    let cr := extract_fields src
    let pr := respond_loop (i + 1) rest
    ((if cr.1.isEmpty then [] else idxEntry i cr.1 ++ "\n\n".data) ++ pr.1,
     (if cr.2.isEmpty then [] else [idxEntry i cr.2]) ++ pr.2)

/-- Embedding of `responder_node` (lines 125-169). -/
def responder_node (s : AgentState) : AgentState :=
  if !s.error.isEmpty then
    { s with final_answer := "Error: ".data ++ s.error }
  else if s.retrieved_sources.isEmpty then
    { s with final_answer := noSourcesMsg s.current_query }
  else
    let br := respond_loop 1 s.retrieved_sources
    let answer := "Answer based on sources for: '".data ++ s.current_query ++ "'".data
      ++ "\n\n".data ++ "=== CONTENT ===\n\n".data ++ br.1
    let answer :=
      if br.2.isEmpty then answer
      else answer ++ "\n=== REFERENCES ===\n".data ++ joinSep "\n".data br.2
    { s with final_answer := answer }

/-- Embedding of `has_error` (lines 176-177), the routing predicate of the conditional
edge out of `planner`. -/
def has_error (s : AgentState) : Str :=
  if !s.error.isEmpty then "error".data else "ok".data

/-- One turn of the compiled graph (lines 184-204): entry point `planner`;
conditional edges `planner -[error]-> responder`, `planner -[ok]->
researcher`; then `researcher -> responder -> END`.  The search performed
by the researcher node is the parameter `srch` applied to the current
query; the real program uses `pure_search` below over the loaded corpus. -/
def run_turn (srch : Str → Except Str (List Str)) (s0 : AgentState) : AgentState :=
  let s1 := planner_node s0
  if has_error s1 = "error".data then
    responder_node s1
  else
    responder_node (researcher_node (srch s1.current_query) s1)

/-- The non-raising search actually performed over the in-memory corpus. -/
def pure_search (corpus : List Str) (q : Str) : Except Str (List Str) :=
  .ok (search_sources corpus q)

/-! ### Derived specification-side definitions -/

/-- Proposition that `sep` occurs in `l` starting at position `k`. -/
def occursAt (sep l : Str) (k : Nat) : Prop :=
  ∃ t, sep ++ t = l.drop k

/-- The reference value a single line contributes: the last-wins field read
off a line whose prefix is `URL:` or `TITLE:` (the value being the line with
the marker occurrences removed and then stripped, as the code computes it). -/
def refOfLine (line : Str) : Option Str :=
  if hasPrefixL urlMark line then some (strip (removeAll urlMark line))
  else if hasPrefixL titleMark line then some (strip (removeAll titleMark line))
  else none

/-- The reference `responder_node` ends up with for a block: the value of
the last line (in line order) whose prefix is `URL:` or `TITLE:`, or the
empty string when no such line exists. -/
def lastRef (src : Str) : Str :=
  ((splitOnSep "\n".data (strip src)).reverse.findSome? refOfLine).getD []

/-- The content value a single line contributes. -/
def contentOfLine (line : Str) : Option Str :=
  if hasPrefixL contentMark line then some (strip (removeAll contentMark line)) else none

/-- The content `responder_node` ends up with for a block: the value of the
last line whose prefix is `CONTENT:`, or the empty string. -/
def lastContent (src : Str) : Str :=
  ((splitOnSep "\n".data (strip src)).reverse.findSome? contentOfLine).getD []

/-- The reference entries `"[i] <reference>"` accumulated for the blocks
from 1-based index `i` on: one entry per block whose last `URL:`/`TITLE:`
line yields a non-empty value, in block order. -/
def refsFrom (i : Nat) : List Str → List Str
  | [] => []
  | src :: rest =>
    (if (lastRef src).isEmpty then [] else [idxEntry i (lastRef src)]) ++ refsFrom (i + 1) rest

/-- The body text accumulated for the blocks from 1-based index `i` on:
`"[i] <content>\n\n"` for each block whose content field is non-empty. -/
def bodyFrom (i : Nat) : List Str → Str
  | [] => []
  | src :: rest =>
    (if (lastContent src).isEmpty then [] else idxEntry i (lastContent src) ++ "\n\n".data)
      ++ bodyFrom (i + 1) rest

/-- The `=== REFERENCES ===` section: present exactly when at least one
reference was recorded, newline-joining the entries. -/
def refsSection (refs : List Str) : Str :=
  if refs.isEmpty then [] else "\n=== REFERENCES ===\n".data ++ joinSep "\n".data refs

/-- Specification-side reading of the content field of the claim under
test: the text following the `CONTENT:` prefix of the (last) line with that
prefix, trimmed of surrounding whitespace, the rest of the line preserved
verbatim (`line.drop contentMark.length` keeps everything after the prefix
untouched).  To be compared with the code's `extract_fields`, which removes
every occurrence of `CONTENT:` from the line instead. -/
def verbatimContentOfLine (line : Str) : Option Str :=
  if hasPrefixL contentMark line then some (strip (line.drop contentMark.length)) else none

def verbatimContent (src : Str) : Str :=
  ((splitOnSep "\n".data (strip src)).reverse.findSome? verbatimContentOfLine).getD []

/-! ### Prefix and substring facts -/

theorem hasPrefixL_iff {p s : Str} : hasPrefixL p s = true ↔ ∃ t, p ++ t = s := by
  unfold hasPrefixL
  rw [beq_iff_eq]
  constructor
  · intro h
    refine ⟨s.drop p.length, ?_⟩
    conv_rhs => rw [← List.take_append_drop p.length s]
    rw [h]
  · rintro ⟨t, rfl⟩
    exact List.take_left p t

theorem hasPrefixL_append (p s : Str) : hasPrefixL p (p ++ s) = true :=
  hasPrefixL_iff.mpr ⟨s, rfl⟩

theorem isSubstr_iff {n h : Str} : isSubstr n h = true ↔ ∃ k, occursAt n h k := by
  induction h with
  | nil =>
    simp only [isSubstr, hasPrefixL_iff, occursAt, List.drop_nil]
    exact ⟨fun hp => ⟨0, hp⟩, fun ⟨_, hp⟩ => hp⟩
  | cons c t ih =>
    simp only [isSubstr, Bool.or_eq_true, hasPrefixL_iff, ih]
    constructor
    · rintro (hp | ⟨k, ho⟩)
      · exact ⟨0, hp⟩
      · exact ⟨k + 1, by rwa [occursAt, List.drop_succ_cons]⟩
    · rintro ⟨k, ho⟩
      cases k with
      | zero => exact Or.inl ho
      | succ k => exact Or.inr ⟨k, by rwa [occursAt, List.drop_succ_cons] at ho⟩

theorem isSubstr_of_append_right (n s : Str) : isSubstr n (n ++ s) = true :=
  isSubstr_iff.mpr ⟨0, s, rfl⟩

theorem isSubstr_extend {n a : Str} (s : Str) (k : Nat)
    (hk : k ≤ a.length) (h : occursAt n a k) : occursAt n (a ++ s) k := by
  obtain ⟨t, ht⟩ := h
  exact ⟨t ++ s, by rw [List.drop_append_of_le_length hk, ← ht, List.append_assoc]⟩

/-! ### Splitting facts -/

theorem splitOnAux_ne_nil (sep s acc : Str) : splitOnAux sep s acc ≠ [] := by
  induction s, acc using splitOnAux.induct sep with
  | case1 acc => simp [splitOnAux]
  | case2 c rest acc hp ih => simp [splitOnAux, hp]
  | case3 c rest acc hp ih => simpa [splitOnAux, hp] using ih

theorem joinSep_cons (sep x : Str) {l : List Str} (h : l ≠ []) :
    joinSep sep (x :: l) = x ++ sep ++ joinSep sep l := by
  cases l with
  | nil => exact absurd rfl h
  | cons y r => rfl

theorem splitOnAux_join (sep : Str) (hs : sep ≠ []) (s acc : Str) :
    joinSep sep (splitOnAux sep s acc) = acc.reverse ++ s := by
  induction s, acc using splitOnAux.induct sep with
  | case1 acc => simp [splitOnAux, joinSep]
  | case2 c rest acc hp ih =>
    rw [splitOnAux, if_pos hp, joinSep_cons sep _ (splitOnAux_ne_nil _ _ _), ih]
    obtain ⟨t, ht⟩ := hasPrefixL_iff.mp hp
    have hd : (sep ++ t).drop sep.length = t := List.drop_left sep t
    have hlen : sep.length = sep.length - 1 + 1 := by
      cases sep with
      | nil => exact absurd rfl hs
      | cons a b => simp
    rw [ht] at hd
    have h2 : List.drop (List.length sep - 1) rest = t := by
      rw [← hd]
      conv_rhs => rw [hlen]
      rw [List.drop_succ_cons]
    rw [List.reverse_nil, List.nil_append, List.append_assoc, h2, ht]
  | case3 c rest acc hp ih =>
    rw [splitOnAux, if_neg hp, ih]
    simp

theorem splitOnAux_no_occ (sep : Str) (hs : sep ≠ []) : ∀ s acc : Str,
    (∀ k, k < acc.length → ¬ occursAt sep (acc.reverse ++ s) k) →
    ∀ b ∈ splitOnAux sep s acc, ∀ k, ¬ occursAt sep b k := by
  intro s acc
  induction s, acc using splitOnAux.induct sep with
  | case1 acc =>
    intro hinv b hb k
    rw [splitOnAux, List.mem_singleton] at hb
    subst hb
    rcases Nat.lt_or_ge k acc.reverse.length with hk | hk
    · rw [List.length_reverse] at hk
      have := hinv k hk
      rwa [List.append_nil] at this
    · rintro ⟨t, ht⟩
      rw [List.drop_eq_nil_of_le hk] at ht
      exact hs (List.append_eq_nil.mp ht).1
  | case2 c rest acc hp ih =>
    intro hinv b hb
    rw [splitOnAux, if_pos hp, List.mem_cons] at hb
    rcases hb with rfl | hb
    · intro k hocc
      rcases Nat.lt_or_ge k acc.reverse.length with hk | hk
      · have hk' : k < acc.length := by rwa [List.length_reverse] at hk
        exact hinv k hk' (isSubstr_extend (c :: rest) k (Nat.le_of_lt hk) hocc)
      · obtain ⟨t, ht⟩ := hocc
        rw [List.drop_eq_nil_of_le hk] at ht
        exact hs (List.append_eq_nil.mp ht).1
    · exact ih (fun k hk => absurd hk (by simp)) b hb
  | case3 c rest acc hp ih =>
    intro hinv b hb
    rw [splitOnAux, if_neg hp] at hb
    refine ih ?_ b hb
    intro k hk
    have heq : (c :: acc).reverse ++ rest = acc.reverse ++ (c :: rest) := by
      rw [List.reverse_cons, List.append_assoc]; rfl
    rw [heq]
    rcases Nat.lt_or_ge k acc.length with hk' | hk'
    · exact hinv k hk'
    · have hkeq : k = acc.length := by
        simp only [List.length_cons] at hk; omega
      subst hkeq
      rintro ⟨t, ht⟩
      rw [← List.length_reverse acc, List.drop_left] at ht
      exact hp (hasPrefixL_iff.mpr ⟨t, ht⟩)

theorem splitOnSep_join (sep : Str) (hs : sep ≠ []) (s : Str) :
    joinSep sep (splitOnSep sep s) = s :=
  splitOnAux_join sep hs s []

theorem splitOnSep_no_sep (sep : Str) (hs : sep ≠ []) (s : Str) :
    ∀ b ∈ splitOnSep sep s, isSubstr sep b = false := by
  intro b hb
  have h := splitOnAux_no_occ sep hs s [] (fun k hk => absurd hk (by simp)) b hb
  rcases Bool.eq_false_or_eq_true (isSubstr sep b) with ht | hf
  · obtain ⟨k, hk⟩ := isSubstr_iff.mp ht
    exact absurd hk (h k)
  · exact hf

/-! ### Tokeniser and retrieval facts -/

theorem tokensIntersect_iff {a b : List Str} :
    tokensIntersect a b = true ↔ ∃ t ∈ a, t ∈ b := by
  unfold tokensIntersect
  rw [List.any_eq_true]
  constructor
  · rintro ⟨t, ht, hc⟩
    exact ⟨t, ht, List.elem_iff.mp hc⟩
  · rintro ⟨t, ht, hc⟩
    exact ⟨t, ht, List.elem_iff.mpr hc⟩

theorem search_loop_eq (qt : List Str) (blocks : List Str) :
    search_loop qt blocks
      = (blocks.filter (fun b => tokensIntersect qt (tokenize b))).map strip := by
  induction blocks with
  | nil => rfl
  | cons b rest ih =>
    by_cases h : tokensIntersect qt (tokenize b) = true
    · simp [search_loop, h, ih]
    · simp [search_loop, h, ih]

theorem search_sources_eq (sources : List Str) (q : Str) :
    search_sources sources q
      = (sources.filter (fun b =>
          decide (∃ t ∈ tokenize q, t ∈ tokenize b))).map strip := by
  unfold search_sources
  rw [search_loop_eq]
  congr 1
  apply List.filter_congr
  intro b _
  rcases Bool.eq_false_or_eq_true (tokensIntersect (tokenize q) (tokenize b)) with ht | hf
  · rw [ht, eq_comm, decide_eq_true_eq]
    exact tokensIntersect_iff.mp ht
  · rw [hf, eq_comm, decide_eq_false_iff_not]
    intro hex
    exact absurd (tokensIntersect_iff.mpr hex) (by rw [hf]; exact Bool.false_ne_true)

theorem search_sources_nomatch (sources : List Str) (q : Str)
    (h : ∀ b ∈ sources, ∀ t ∈ tokenize q, t ∉ tokenize b) :
    search_sources sources q = [] := by
  rw [search_sources_eq]
  rw [List.map_eq_nil_iff, List.filter_eq_nil_iff]
  intro b hb
  rw [decide_eq_true_eq]
  rintro ⟨t, htq, htb⟩
  exact h b hb t htq htb

/-! ### Field-extraction facts -/

theorem findSomeAppend {α β : Type} (f : α → Option β) (a b : List α) :
    (a ++ b).findSome? f = (a.findSome? f).or (b.findSome? f) := by
  induction a with
  | nil => simp [List.findSome?]
  | cons x xs ih => cases h : f x <;> simp [List.findSome?, h, ih]

theorem firstChar_pfx_false {m1 m2 l : Str} (h1 : hasPrefixL m1 l = true)
    (hm1 : 1 ≤ m1.length) (hm2 : 1 ≤ m2.length) (hne : m1.take 1 ≠ m2.take 1) :
    hasPrefixL m2 l = false := by
  rcases Bool.eq_false_or_eq_true (hasPrefixL m2 l) with ht | hf
  · obtain ⟨t1, e1⟩ := hasPrefixL_iff.mp h1
    obtain ⟨t2, e2⟩ := hasPrefixL_iff.mp ht
    apply absurd _ hne
    have e : m1 ++ t1 = m2 ++ t2 := by rw [e1, e2]
    have etake : (m1 ++ t1).take 1 = (m2 ++ t2).take 1 := by rw [e]
    rwa [List.take_append_of_le_length hm1, List.take_append_of_le_length hm2] at etake
  · exact hf

theorem fieldStep_snd (cr : Str × Str) (line : Str) :
    (fieldStep cr line).2 = (refOfLine line).getD cr.2 := by
  unfold fieldStep refOfLine
  by_cases hc : hasPrefixL contentMark line = true
  · have hu : hasPrefixL urlMark line = false :=
      firstChar_pfx_false hc (by decide) (by decide) (by decide)
    have ht : hasPrefixL titleMark line = false :=
      firstChar_pfx_false hc (by decide) (by decide) (by decide)
    simp [hc, hu, ht]
  · by_cases hu : hasPrefixL urlMark line = true
    · simp [hc, hu]
    · by_cases ht : hasPrefixL titleMark line = true
      · simp [hc, hu, ht]
      · simp [hc, hu, ht]

theorem fieldStep_fst (cr : Str × Str) (line : Str) :
    (fieldStep cr line).1 = (contentOfLine line).getD cr.1 := by
  unfold fieldStep contentOfLine
  by_cases hc : hasPrefixL contentMark line = true
  · simp [hc]
  · by_cases hu : hasPrefixL urlMark line = true
    · simp [hc, hu]
    · by_cases ht : hasPrefixL titleMark line = true
      · simp [hc, hu, ht]
      · simp [hc, hu, ht]

theorem foldl_fieldStep_snd (lines : List Str) (cr : Str × Str) :
    (lines.foldl fieldStep cr).2 = (lines.reverse.findSome? refOfLine).getD cr.2 := by
  induction lines generalizing cr with
  | nil => rfl
  | cons l ls ih =>
    rw [List.foldl_cons, ih, List.reverse_cons, findSomeAppend]
    cases h : ls.reverse.findSome? refOfLine with
    | some v => simp [Option.or]
    | none =>
      cases hl : refOfLine l with
      | some w => simp [Option.or, List.findSome?, hl, fieldStep_snd]
      | none => simp [Option.or, List.findSome?, hl, fieldStep_snd]

theorem foldl_fieldStep_fst (lines : List Str) (cr : Str × Str) :
    (lines.foldl fieldStep cr).1 = (lines.reverse.findSome? contentOfLine).getD cr.1 := by
  induction lines generalizing cr with
  | nil => rfl
  | cons l ls ih =>
    rw [List.foldl_cons, ih, List.reverse_cons, findSomeAppend]
    cases h : ls.reverse.findSome? contentOfLine with
    | some v => simp [Option.or]
    | none =>
      cases hl : contentOfLine l with
      | some w => simp [Option.or, List.findSome?, hl, fieldStep_fst]
      | none => simp [Option.or, List.findSome?, hl, fieldStep_fst]

theorem extract_fields_snd (src : Str) : (extract_fields src).2 = lastRef src := by
  unfold extract_fields lastRef
  rw [foldl_fieldStep_snd]

theorem extract_fields_fst (src : Str) : (extract_fields src).1 = lastContent src := by
  unfold extract_fields lastContent
  rw [foldl_fieldStep_fst]

/-! ### Response-synthesis characterisation -/

theorem respond_loop_eq (srcs : List Str) (i : Nat) :
    respond_loop i srcs = (bodyFrom i srcs, refsFrom i srcs) := by
  induction srcs generalizing i with
  | nil => rfl
  | cons s rest ih =>
    simp only [respond_loop, bodyFrom, refsFrom, ih, extract_fields_fst, extract_fields_snd]

theorem responder_err (s : AgentState) (h : s.error ≠ []) :
    responder_node s = { s with final_answer := "Error: ".data ++ s.error } := by
  have hb : (!s.error.isEmpty) = true := by
    rcases Bool.eq_false_or_eq_true s.error.isEmpty with ht | hf
    · exact absurd (List.isEmpty_iff.mp ht) h
    · rw [hf]; rfl
  unfold responder_node
  rw [if_pos hb]

theorem responder_nosrc (s : AgentState) (he : s.error = [])
    (hs : s.retrieved_sources = []) :
    responder_node s = { s with final_answer := noSourcesMsg s.current_query } := by
  unfold responder_node
  rw [he, hs]
  rfl

theorem responder_answer (s : AgentState) (he : s.error = [])
    (hs : s.retrieved_sources ≠ []) :
    (responder_node s).final_answer =
      "Answer based on sources for: '".data ++ s.current_query ++ "'".data ++ "\n\n".data
        ++ "=== CONTENT ===\n\n".data ++ bodyFrom 1 s.retrieved_sources
        ++ refsSection (refsFrom 1 s.retrieved_sources) := by
  unfold responder_node
  have h1 : (!s.error.isEmpty) = false := by rw [he]; rfl
  have h2 : s.retrieved_sources.isEmpty = false := by
    rcases Bool.eq_false_or_eq_true s.retrieved_sources.isEmpty with ht | hf
    · exact absurd (List.isEmpty_iff.mp ht) hs
    · exact hf
  rw [h1, if_neg (by simp), if_neg (by rw [h2]; simp)]
  simp only [respond_loop_eq]
  unfold refsSection
  cases hrefs : (refsFrom 1 s.retrieved_sources).isEmpty with
  | true => simp [hrefs, List.append_assoc]
  | false => simp [hrefs, List.append_assoc]

theorem responder_error_field (s : AgentState) : (responder_node s).error = s.error := by
  unfold responder_node
  split
  · rfl
  split
  · rfl
  rfl

theorem responder_sources_field (s : AgentState) :
    (responder_node s).retrieved_sources = s.retrieved_sources := by
  unfold responder_node
  split
  · rfl
  split
  · rfl
  rfl

/-! ### Pipeline-shape facts -/

theorem planner_empty (s : AgentState) (h : strip s.current_query = []) :
    planner_node s = { s with error := "Empty query received.".data } := by
  unfold planner_node
  rw [if_pos (by rw [h]; rfl)]

theorem planner_ok (s : AgentState) (h : strip s.current_query ≠ []) :
    planner_node s = { s with error := [] } := by
  unfold planner_node
  rw [if_neg]
  intro hemp
  exact h (List.isEmpty_iff.mp hemp)

theorem run_turn_empty (srch : Str → Except Str (List Str)) (s : AgentState)
    (h : strip s.current_query = []) :
    run_turn srch s = responder_node { s with error := "Empty query received.".data } := by
  unfold run_turn
  rw [planner_empty s h]
  rw [if_pos]
  rfl

theorem run_turn_ok (srch : Str → Except Str (List Str)) (s : AgentState)
    (h : strip s.current_query ≠ []) :
    run_turn srch s
      = responder_node (researcher_node (srch s.current_query) { s with error := [] }) := by
  unfold run_turn
  rw [planner_ok s h]
  rw [if_neg]
  intro hco
  have hok : has_error { s with error := ([] : Str) } = "ok".data := rfl
  rw [hok] at hco
  exact absurd hco (by decide)

/-! ### Summariser facts -/

theorem summ_total (srcs : List Str) (acc : SourceSummary) :
    (srcs.foldl summarizeStep acc).total_sources = acc.total_sources := by
  induction srcs generalizing acc with
  | nil => rfl
  | cons x rest ih => rw [List.foldl_cons, ih]; rfl

theorem summ_url (srcs : List Str) (acc : SourceSummary) :
    (srcs.foldl summarizeStep acc).url_sources
      = acc.url_sources + (srcs.filter (fun s => isSubstr urlMark s)).length := by
  induction srcs generalizing acc with
  | nil => simp
  | cons x rest ih =>
    rw [List.foldl_cons, ih]
    have hstep : (summarizeStep acc x).url_sources
        = if isSubstr urlMark x then acc.url_sources + 1 else acc.url_sources := rfl
    rw [hstep, List.filter_cons]
    by_cases h : isSubstr urlMark x = true
    · simp only [h, if_true, List.length_cons]
      omega
    · have hf : isSubstr urlMark x = false := by
        rcases Bool.eq_false_or_eq_true (isSubstr urlMark x) with ht | hf
        · exact absurd ht h
        · exact hf
      simp only [hf, Bool.false_eq_true, if_false]

theorem summ_title (srcs : List Str) (acc : SourceSummary) :
    (srcs.foldl summarizeStep acc).title_sources
      = acc.title_sources + (srcs.filter (fun s => isSubstr titleMark s)).length := by
  induction srcs generalizing acc with
  | nil => simp
  | cons x rest ih =>
    rw [List.foldl_cons, ih]
    have hstep : (summarizeStep acc x).title_sources
        = if isSubstr titleMark x then acc.title_sources + 1 else acc.title_sources := rfl
    rw [hstep, List.filter_cons]
    by_cases h : isSubstr titleMark x = true
    · simp only [h, if_true, List.length_cons]
      omega
    · have hf : isSubstr titleMark x = false := by
        rcases Bool.eq_false_or_eq_true (isSubstr titleMark x) with ht | hf
        · exact absurd ht h
        · exact hf
      simp only [hf, Bool.false_eq_true, if_false]

theorem setUpdate_mem (a b : List Str) (t : Str) :
    t ∈ setUpdate a b ↔ t ∈ a ∨ t ∈ b := by
  unfold setUpdate
  rw [List.mem_append, List.mem_filter]
  constructor
  · rintro (ha | ⟨hb, _⟩)
    · exact Or.inl ha
    · exact Or.inr hb
  · rintro (ha | hb)
    · exact Or.inl ha
    · by_cases hc : a.contains t = true
      · exact Or.inl (List.elem_iff.mp hc)
      · refine Or.inr ⟨hb, ?_⟩
        rcases Bool.eq_false_or_eq_true (a.contains t) with ht | hf
        · exact absurd ht hc
        · rw [hf]; rfl

theorem summ_topics (srcs : List Str) (acc : SourceSummary) (t : Str) :
    t ∈ (srcs.foldl summarizeStep acc).topics
      ↔ t ∈ acc.topics ∨ ∃ src ∈ srcs, t ∈ topicsOf src := by
  induction srcs generalizing acc with
  | nil => simp
  | cons x rest ih =>
    rw [List.foldl_cons, ih]
    have hstep : (summarizeStep acc x).topics = setUpdate acc.topics (topicsOf x) := rfl
    rw [hstep, setUpdate_mem]
    simp only [List.mem_cons]
    constructor
    · rintro ((ha | hx) | ⟨src, hsrc, hm⟩)
      · exact Or.inl ha
      · exact Or.inr ⟨x, Or.inl rfl, hx⟩
      · exact Or.inr ⟨src, Or.inr hsrc, hm⟩
    · rintro (ha | ⟨src, (rfl | hsrc), hm⟩)
      · exact Or.inl (Or.inl ha)
      · exact Or.inl (Or.inr hm)
      · exact Or.inr ⟨src, hsrc, hm⟩

theorem topicsOf_token {src t : Str} (h : t ∈ topicsOf src) :
    t ∈ tokenize src ∧ 4 < t.length := by
  unfold topicsOf at h
  have h2 := List.take_subset 3 _ h
  rw [List.mem_filter] at h2
  exact ⟨h2.1, by have := h2.2; rwa [decide_eq_true_eq] at this⟩

theorem topicsOf_card (src : Str) : (topicsOf src).length ≤ 3 := by
  unfold topicsOf
  exact List.length_take_le 3 _

/-! ### The claims -/

/-- C1: for every session state entering a turn with error, final answer and
retrieved sources cleared, if the trimmed current query is empty then after
the pipeline runs the final answer is exactly "Error: Empty query received."
and retrieved sources is empty; the retriever is never invoked on this path
(the turn's outcome is independent of the search function). -/
theorem claim_C1 (srch : Str → Except Str (List Str)) (s : AgentState)
    (_he : s.error = []) (_hf : s.final_answer = []) (hr : s.retrieved_sources = [])
    (hq : strip s.current_query = []) :
    (run_turn srch s).final_answer = "Error: Empty query received.".data
      ∧ (run_turn srch s).retrieved_sources = []
      ∧ ∀ srch' : Str → Except Str (List Str), run_turn srch s = run_turn srch' s := by
  have hrun : ∀ f : Str → Except Str (List Str),
      run_turn f s = responder_node { s with error := "Empty query received.".data } :=
    fun f => run_turn_empty f s hq
  have hner : ({ s with error := "Empty query received.".data } : AgentState).error ≠ [] :=
    fun hcon => absurd (show ("Empty query received.".data : Str) = [] from hcon) (by decide)
  refine ⟨?_, ?_, ?_⟩
  · rw [hrun srch, responder_err _ hner]
    rfl
  · rw [hrun srch, responder_err _ hner]
    exact hr
  · intro srch'
    rw [hrun srch, hrun srch']

theorem claim_C1_witness :
    (run_turn (fun _ => Except.ok [])
        { conversation_history := [], current_query := "   ".data,
          retrieved_sources := [], final_answer := [], error := [] }).final_answer
      = "Error: Empty query received.".data :=
  (claim_C1 (fun _ => Except.ok [])
      { conversation_history := [], current_query := "   ".data,
        retrieved_sources := [], final_answer := [], error := [] }
      rfl rfl rfl (by decide)).1

/-- C2: search returns exactly the corpus blocks (each trimmed) whose token
set meets the query's token set, in corpus order; in particular it returns
the empty sequence when no block matches (which covers the empty corpus). -/
theorem claim_C2 (corpus : List Str) (q : Str) :
    search_sources corpus q
      = (corpus.filter (fun b => decide (∃ t ∈ tokenize q, t ∈ tokenize b))).map strip
      ∧ ((∀ b ∈ corpus, ∀ t ∈ tokenize q, t ∉ tokenize b) → search_sources corpus q = []) :=
  ⟨search_sources_eq corpus q, search_sources_nomatch corpus q⟩

theorem claim_C2_witness :
    search_sources ["alpha beta".data] "gamma".data = [] :=
  (claim_C2 ["alpha beta".data] "gamma".data).2 (by decide)

/-- C5: for every query whose trimmed form is non-empty, if no corpus block
shares a token with it, the turn's final answer contains the substring
"No relevant sources found for: '<query>'." and the error field stays
empty. -/
theorem claim_C5 (corpus : List Str) (s : AgentState)
    (hq : strip s.current_query ≠ [])
    (hnm : ∀ b ∈ corpus, ∀ t ∈ tokenize s.current_query, t ∉ tokenize b) :
    isSubstr ("No relevant sources found for: '".data ++ s.current_query ++ "'.".data)
        (run_turn (pure_search corpus) s).final_answer = true
      ∧ (run_turn (pure_search corpus) s).error = [] := by
  rw [run_turn_ok _ s hq]
  have hres : researcher_node (pure_search corpus s.current_query) { s with error := [] }
      = { s with error := [], retrieved_sources := [] } := by
    unfold pure_search researcher_node
    rw [search_sources_nomatch _ _ hnm]
  rw [hres, responder_nosrc _ rfl rfl]
  refine ⟨?_, rfl⟩
  show isSubstr _ (noSourcesMsg s.current_query) = true
  unfold noSourcesMsg
  exact isSubstr_of_append_right _ _

theorem claim_C5_witness :
    isSubstr ("No relevant sources found for: '".data ++ "hello".data ++ "'.".data)
        (run_turn (pure_search [])
          { conversation_history := [], current_query := "hello".data,
            retrieved_sources := [], final_answer := [], error := [] }).final_answer = true :=
  (claim_C5 []
      { conversation_history := [], current_query := "hello".data,
        retrieved_sources := [], final_answer := [], error := [] }
      (by decide) (by decide)).1

/-- C6: every exception raised by the search at the Researching stage is
caught: the error is set to "Search error: " followed by the cause, the
retrieved sources are forced empty, and the machine still reaches the
responder, which renders "Error: <message>" as the final answer. -/
theorem claim_C6 (e : Str) (s : AgentState) (hq : strip s.current_query ≠ []) :
    (run_turn (fun _ => Except.error e) s).error = "Search error: ".data ++ e
      ∧ (run_turn (fun _ => Except.error e) s).retrieved_sources = []
      ∧ (run_turn (fun _ => Except.error e) s).final_answer
          = "Error: ".data ++ ("Search error: ".data ++ e) := by
  rw [run_turn_ok _ s hq]
  have hres : researcher_node (Except.error e) { s with error := [] }
      = { s with error := "Search error: ".data ++ e, retrieved_sources := [] } := rfl
  have hne : ("Search error: ".data ++ e : Str) ≠ [] := by
    intro hcon
    exact absurd (List.append_eq_nil.mp hcon).1 (by decide)
  rw [hres, responder_err _ hne]
  exact ⟨rfl, rfl, rfl⟩

theorem claim_C6_witness :
    (run_turn (fun _ => Except.error "boom".data)
        { conversation_history := [], current_query := "hi".data,
          retrieved_sources := [], final_answer := [], error := [] }).final_answer
      = "Error: ".data ++ ("Search error: ".data ++ "boom".data) :=
  (claim_C6 "boom".data
      { conversation_history := [], current_query := "hi".data,
        retrieved_sources := [], final_answer := [], error := [] }
      (by decide)).2.2

/-- C7: invariant of every completed turn: when the produced state's error
field is non-empty, the final answer is exactly "Error: " followed by that
error content. -/
theorem claim_C7 (srch : Str → Except Str (List Str)) (s : AgentState)
    (h : (run_turn srch s).error ≠ []) :
    (run_turn srch s).final_answer = "Error: ".data ++ (run_turn srch s).error := by
  by_cases hq : strip s.current_query = []
  · rw [run_turn_empty srch s hq]
    rw [responder_err { s with error := "Empty query received.".data }
      (fun hcon => absurd (show ("Empty query received.".data : Str) = [] from hcon)
        (by decide))]
  · rw [run_turn_ok srch s hq] at h ⊢
    have h2 : (researcher_node (srch s.current_query) { s with error := [] }).error ≠ [] := by
      rwa [responder_error_field] at h
    rw [responder_err _ h2]

theorem claim_C7_witness :
    (run_turn (fun _ => Except.ok [])
        { conversation_history := [], current_query := [],
          retrieved_sources := [], final_answer := [], error := [] }).final_answer
      = "Error: ".data
          ++ (run_turn (fun _ => Except.ok [])
            { conversation_history := [], current_query := [],
              retrieved_sources := [], final_answer := [], error := [] }).error :=
  claim_C7 (fun _ => Except.ok [])
    { conversation_history := [], current_query := [],
      retrieved_sources := [], final_answer := [], error := [] } (by decide)

/-- C10: a query whose trimmed form is non-empty but whose token set is
empty (for example punctuation only) passes Planning validation with an
empty error field, yet retrieval returns the empty sequence for every
corpus, so the turn always ends with the no-sources message. -/
theorem claim_C10 (s : AgentState) (hq : strip s.current_query ≠ [])
    (htok : tokenize s.current_query = []) :
    (planner_node s).error = []
      ∧ (∀ corpus : List Str, search_sources corpus s.current_query = [])
      ∧ ∀ corpus : List Str,
          (run_turn (pure_search corpus) s).final_answer = noSourcesMsg s.current_query
            ∧ (run_turn (pure_search corpus) s).error = [] := by
  have hsearch : ∀ corpus : List Str, search_sources corpus s.current_query = [] := by
    intro corpus
    apply search_sources_nomatch
    intro b hb t ht
    rw [htok] at ht
    exact absurd ht (List.not_mem_nil t)
  refine ⟨by rw [planner_ok s hq], hsearch, ?_⟩
  intro corpus
  rw [run_turn_ok _ s hq]
  have hres : researcher_node (pure_search corpus s.current_query) { s with error := [] }
      = { s with error := [], retrieved_sources := [] } := by
    unfold pure_search researcher_node
    rw [hsearch corpus]
  rw [hres, responder_nosrc _ rfl rfl]
  exact ⟨rfl, rfl⟩

theorem claim_C10_witness :
    search_sources ["anything at all".data] "!!!".data = [] :=
  (claim_C10
      { conversation_history := [], current_query := "!!!".data,
        retrieved_sources := [], final_answer := [], error := [] }
      (by decide) (by decide)).2.1 ["anything at all".data]

/-- C3: for every block the response synthesizer processes, the recorded
reference is the value of the last line (in line-scan order) whose prefix is
"URL:" or "TITLE:" (so a URL value is overwritten by a subsequent TITLE line
and vice versa), and the final answer carries a "=== REFERENCES ===" section
exactly when references were recorded, listing "[i] <reference>" entries in
1-based encounter order, newline-joined. -/
theorem claim_C3 (s : AgentState) (he : s.error = []) (hs : s.retrieved_sources ≠ []) :
    (∀ src ∈ s.retrieved_sources, (extract_fields src).2 = lastRef src)
      ∧ (responder_node s).final_answer
          = "Answer based on sources for: '".data ++ s.current_query ++ "'".data
            ++ "\n\n".data ++ "=== CONTENT ===\n\n".data ++ bodyFrom 1 s.retrieved_sources
            ++ refsSection (refsFrom 1 s.retrieved_sources) :=
  ⟨fun src _ => extract_fields_snd src, responder_answer s he hs⟩

theorem claim_C3_witness :
    (extract_fields
        "TITLE: Ocean Facts\nURL: http://example.com/ocean\nCONTENT: Oceans cover most of Earth.".data).2
      = lastRef
        "TITLE: Ocean Facts\nURL: http://example.com/ocean\nCONTENT: Oceans cover most of Earth.".data :=
  (claim_C3
      { conversation_history := [], current_query := "ocean".data,
        retrieved_sources :=
          ["TITLE: Ocean Facts\nURL: http://example.com/ocean\nCONTENT: Oceans cover most of Earth.".data],
        final_answer := [], error := [] }
      rfl (by decide)).1 _ (by decide)

/-- C4 as frozen is refuted by `claim_C4_cex`: the code extracts the content
field with `line.replace("CONTENT:", "")`, removing every occurrence of the
marker in the line, not only the leading one, so the rest of the line is
not preserved verbatim.  Amended: the extracted content field is the last
`CONTENT:`-prefixed line with every occurrence of the substring `CONTENT:`
removed and the result trimmed; when the content field is non-empty the
body contains `"[i] <content>"` followed by a blank line for the block's
1-based index `i`. -/
theorem claim_C4 (s : AgentState) (he : s.error = []) (hs : s.retrieved_sources ≠ []) :
    (∀ src ∈ s.retrieved_sources, (extract_fields src).1 = lastContent src)
      ∧ (responder_node s).final_answer
          = "Answer based on sources for: '".data ++ s.current_query ++ "'".data
            ++ "\n\n".data ++ "=== CONTENT ===\n\n".data ++ bodyFrom 1 s.retrieved_sources
            ++ refsSection (refsFrom 1 s.retrieved_sources) :=
  ⟨fun src _ => extract_fields_fst src, responder_answer s he hs⟩

theorem claim_C4_witness :
    (extract_fields "CONTENT: Oceans cover most of Earth.".data).1
      = lastContent "CONTENT: Oceans cover most of Earth.".data :=
  (claim_C4
      { conversation_history := [], current_query := "ocean".data,
        retrieved_sources := ["CONTENT: Oceans cover most of Earth.".data],
        final_answer := [], error := [] }
      rfl (by decide)).1 _ (by decide)

/-- C4 counterexample: on the block "CONTENT: a CONTENT: b" the code's
content field is "a  b" (both occurrences of the marker removed), while the
claim's verbatim-after-prefix reading gives "a CONTENT: b"; the two
disagree. -/
theorem claim_C4_cex :
    (extract_fields "CONTENT: a CONTENT: b".data).1 = "a  b".data
      ∧ verbatimContent "CONTENT: a CONTENT: b".data = "a CONTENT: b".data
      ∧ ("a  b".data : Str) ≠ "a CONTENT: b".data := by
  refine ⟨?_, ?_, by decide⟩
  · simp +decide [extract_fields, fieldStep, strip, removeAll, splitOnSep, splitOnAux,
      hasPrefixL, contentMark, urlMark, titleMark, isSpaceChar]
  · simp +decide [verbatimContent, verbatimContentOfLine, strip, removeAll, splitOnSep,
      splitOnAux, hasPrefixL, contentMark, isSpaceChar, List.findSome?]

/-- C8: the summary's total equals the block count, its URL and TITLE
counts equal the numbers of blocks containing the respective substrings,
and every topic is a token, longer than four characters, of one of the
blocks, drawn from that block's at-most-three contributed tokens. -/
theorem claim_C8 (sources : List Str) :
    (summarize_sources sources).total_sources = sources.length
      ∧ (summarize_sources sources).url_sources
          = (sources.filter (fun s => isSubstr urlMark s)).length
      ∧ (summarize_sources sources).title_sources
          = (sources.filter (fun s => isSubstr titleMark s)).length
      ∧ (∀ t ∈ (summarize_sources sources).topics,
          ∃ src ∈ sources, t ∈ tokenize src ∧ 4 < t.length)
      ∧ (∀ t ∈ (summarize_sources sources).topics,
          ∃ src ∈ sources, t ∈ topicsOf src ∧ (topicsOf src).length ≤ 3) := by
  have hmem : ∀ t ∈ (summarize_sources sources).topics, ∃ src ∈ sources, t ∈ topicsOf src := by
    intro t ht
    unfold summarize_sources at ht
    rcases (summ_topics sources _ t).mp ht with hin | hex
    · exact absurd hin (List.not_mem_nil t)
    · exact hex
  refine ⟨?_, ?_, ?_, ?_, ?_⟩
  · unfold summarize_sources
    exact summ_total sources _
  · unfold summarize_sources
    rw [summ_url]
    simp
  · unfold summarize_sources
    rw [summ_title]
    simp
  · intro t ht
    obtain ⟨src, hsrc, hm⟩ := hmem t ht
    obtain ⟨htok, hlen⟩ := topicsOf_token hm
    exact ⟨src, hsrc, htok, hlen⟩
  · intro t ht
    obtain ⟨src, hsrc, hm⟩ := hmem t ht
    exact ⟨src, hsrc, hm, topicsOf_card src⟩

theorem claim_C8_witness :
    ∃ src ∈ (["TITLE: deep oceans everywhere".data] : List Str),
      ("title".data : Str) ∈ tokenize src ∧ 4 < ("title".data : Str).length :=
  (claim_C8 ["TITLE: deep oceans everywhere".data]).2.2.2.1 "title".data (by decide)

/-- C9: the corpus loader returns the empty sequence when the file does not
exist, and otherwise cuts the content exactly at the "\n---\n" delimiter
lines: joining the returned blocks back with the delimiter reconstructs the
content, and no returned block still contains the delimiter. -/
theorem claim_C9 :
    load_sources none = []
      ∧ ∀ c : Str,
          joinSep "\n---\n".data (load_sources (some c)) = c
            ∧ ∀ b ∈ load_sources (some c), isSubstr "\n---\n".data b = false := by
  refine ⟨rfl, ?_⟩
  intro c
  constructor
  · show joinSep "\n---\n".data (splitOnSep "\n---\n".data c) = c
    exact splitOnSep_join _ (by decide) c
  · intro b hb
    exact splitOnSep_no_sep _ (by decide) c b hb

theorem claim_C9_witness :
    isSubstr "\n---\n".data "a".data = false :=
  (claim_C9.2 "a\n---\nb".data).2 "a".data
    (by simp +decide [load_sources, splitOnSep, splitOnAux, hasPrefixL])
